import Mathlib

/-!
Shallow embedding of the AT24Cxx EEPROM driver (src/AT24Cxx.c, src/AT24Cxx.h).

The header fixes `AT24Cxx_I2C_MODE == 1` (hardware I2C), so the compiled code
of `AT24Cxx_Write`, `AT24Cxx_Erase` and `AT24Cxx_Read` is the `#else` branch of
each function; those branches are what we embed as the functions of the same
name.  The software branch of `AT24Cxx_Read` (bit-level transport) is embedded
separately as the acknowledge sequence it produces.

Machine integers are modelled as `Nat` with an explicit `% 2 ^ 32` where the C
code's `uint32_t` arithmetic can wrap.  The packed bit-field union `i2caddr`
(AT24Cxx.h lines 94-116) is modelled as a single byte value together with the
bit-field update `setBits`: writing field `wordaddr.bit0` is writing bit 1 of
the byte, `wordaddr.bit1` bit 2, `wordaddr.bit2` bit 3, `hardaddr.bit` bits
1-3, `devtype.bit` bits 4-7 (the layout documented by the comments in the
header and by the device-address table at the top of AT24Cxx.c).

The hardware bus (`dev->port.bus->wmem` / `rmem`, declared in the missing
`bus_i2c.h`) is an external collaborator; it is modelled as a pair of opaque
response functions, and the sequence of `(address, length)` pairs passed to
`wmem` (resp. `rmem`) is recorded as the transaction trace of a call.
-/

set_option maxHeartbeats 1600000

namespace AT24CxxModel

/-- Modulus of `uint32_t` arithmetic. -/
def U32 : Nat := 4294967296

/-- Tool macro `rbit(val, x) = ((val & (1 << x)) >> x)` : read one bit. -/
def rbit (val x : Nat) : Nat := val / 2 ^ x % 2

/-- C bit-field assignment on a packed byte: replace the `width` bits of
`byte` that start at bit `lo` by the low `width` bits of `val`; every other
bit of `byte` is unchanged. -/
def setBits (byte lo width val : Nat) : Nat :=
  byte % 2 ^ lo + val % 2 ^ width * 2 ^ lo + byte / 2 ^ (lo + width) * 2 ^ (lo + width)

/-- The `AT24Cxx_CHIP` enumeration (AT24Cxx.h lines 72-86). -/
inductive AT24Cxx_CHIP where
  | AT24C01
  | AT24C02
  | AT24C04
  | AT24C08
  | AT24C16
  | AT24C32
  | AT24C64
  | AT24C128
  | AT24C256
  | AT24C512
  | AT24CM01
  | AT24CM02
deriving DecidableEq, Repr

open AT24Cxx_CHIP

/-- The numeric enumerator values of `AT24Cxx_CHIP` (used by the comparison
`dev->info.type >= AT24C32` in `AT24Cxx_SetWordAddress`). -/
def chipCode : AT24Cxx_CHIP → Nat
  | AT24C01 => 1
  | AT24C02 => 2
  | AT24C04 => 3
  | AT24C08 => 4
  | AT24C16 => 5
  | AT24C32 => 6
  | AT24C64 => 7
  | AT24C128 => 8
  | AT24C256 => 9
  | AT24C512 => 10
  | AT24CM01 => 11
  | AT24CM02 => 12

/-- Device state `at24cxx_t` (info part): chip type, the packed device-address
byte `i2caddr`, and the derived page size.  The port (bus handle) is passed
separately to each operation. -/
structure at24cxx_t where
  type : AT24Cxx_CHIP
  i2caddr : Nat
  pagesize : Nat
deriving DecidableEq, Repr

/-- The hardware-I2C bus collaborator (`hw_i2c_t`, from the missing
`bus_i2c.h`): `wmem devaddrbyte addr memaddrsize data` returns the status of a
block write, `rmem devaddrbyte addr memaddrsize size` returns the bytes read
and the status. -/
structure HwBus where
  wmem : Nat → Nat → Nat → List Nat → Nat
  rmem : Nat → Nat → Nat → Nat → List Nat × Nat

/-- `AT24Cxx_GetPageWriteSize` (AT24Cxx.c lines 61-95). -/
def AT24Cxx_GetPageWriteSize (type : AT24Cxx_CHIP) : Nat :=
  if type = AT24C01 ∨ type = AT24C02 then 8
  else if type = AT24C04 ∨ type = AT24C08 ∨ type = AT24C16 then 16
  else if type = AT24C32 ∨ type = AT24C64 then 32
  else if type = AT24C128 ∨ type = AT24C256 then 64
  else if type = AT24C512 then 128
  else if type = AT24CM01 ∨ type = AT24CM02 then 256
  else 8

/-- `AT24Cxx_config` (AT24Cxx.c lines 105-118): store the chip type, write the
device-type bits (bits 4-7 of the device-address byte), write the hardware
address bits (bits 1-3), and derive the page size. -/
def AT24Cxx_config (dev : at24cxx_t) (type : AT24Cxx_CHIP) (devaddr haraddr : Nat) :
    at24cxx_t :=
  { type := type
    i2caddr := setBits (setBits dev.i2caddr 4 4 devaddr) 1 3 haraddr
    pagesize := AT24Cxx_GetPageWriteSize type }

/-- `AT24Cxx_SetWordAddress` (AT24Cxx.c lines 127-166): fold the spillover
address bits into the device-address byte (`wordaddr.bit0` is bit 1 of the
byte, `bit1` bit 2, `bit2` bit 3) and report the word-address size through
`*addrsize`.  Returns the updated device and the word-address size. -/
def AT24Cxx_SetWordAddress (dev : at24cxx_t) (addr : Nat) : at24cxx_t × Nat :=
  if chipCode AT24C32 ≤ chipCode dev.type then
    (match dev.type with
     | AT24CM01 => { dev with i2caddr := setBits dev.i2caddr 1 1 (rbit addr 16) }
     | AT24CM02 =>
         { dev with
           i2caddr := setBits (setBits dev.i2caddr 1 1 (rbit addr 16)) 2 1 (rbit addr 17) }
     | _ => dev, 2)
  else
    (match dev.type with
     | AT24C04 => { dev with i2caddr := setBits dev.i2caddr 1 1 (rbit addr 8) }
     | AT24C08 =>
         { dev with
           i2caddr := setBits (setBits dev.i2caddr 1 1 (rbit addr 8)) 2 1 (rbit addr 9) }
     | AT24C16 =>
         { dev with
           i2caddr :=
             setBits (setBits (setBits dev.i2caddr 1 1 (rbit addr 8)) 2 1 (rbit addr 9))
               3 1 (rbit addr 10) }
     | _ => dev, 1)

/-- Loop body of `AT24Cxx_Write` in hardware-I2C mode (AT24Cxx.c lines
305-323): `for (i = saddr; i < EndAddr; i += size)` with
`CurPageSize = pagesize - i % pagesize`, `size = min(RemainSize, CurPageSize)`,
`rsp = wmem(...)` (the status of each chunk overwrites `rsp`), and the data
pointer advanced by `size` per chunk.  The returned triple is the final device
state, the final `rsp`, and the trace of `(address, length)` pairs handed to
`wmem`.  `fuel` bounds the number of unfoldings; the callers pass `size + 1`,
which the loop never exhausts when `pagesize ≥ 1` (each iteration consumes at
least one byte of `RemainSize`). -/
def wLoop (bus : HwBus) (fuel : Nat) (dev : at24cxx_t) (i endAddr remain : Nat)
    (data : List Nat) (rsp : Nat) : at24cxx_t × Nat × List (Nat × Nat) :=
  match fuel with
  | 0 => (dev, rsp, [])
  | fuel + 1 =>
    if i < endAddr then
      let sz := min remain (dev.pagesize - i % dev.pagesize)
      let dm := AT24Cxx_SetWordAddress dev i
      let r := bus.wmem dm.1.i2caddr i dm.2 (data.take sz)
      let rest := wLoop bus fuel dm.1 ((i + sz) % U32) endAddr (remain - sz) (data.drop sz) r
      (rest.1, rest.2.1, (i, sz) :: rest.2.2)
    else (dev, rsp, [])

/-- `AT24Cxx_Write` in hardware-I2C mode (AT24Cxx.c lines 247-328):
`EndAddr = saddr + size` in `uint32_t` arithmetic, `RemainSize = size`,
`rsp = 0`, then the page loop. -/
def AT24Cxx_Write (bus : HwBus) (dev : at24cxx_t) (saddr : Nat) (data : List Nat)
    (size : Nat) : at24cxx_t × Nat × List (Nat × Nat) :=
  wLoop bus (size + 1) dev saddr ((saddr + size) % U32) size data 0

/-- `AT24Cxx_MAX_ERASE_SIZE` (AT24Cxx.h line 50). -/
def AT24Cxx_MAX_ERASE_SIZE : Nat := 10

/-- `AT24Cxx_MAX_COMPARE_SIZE` (AT24Cxx.h line 55). -/
def AT24Cxx_MAX_COMPARE_SIZE : Nat := 10

/-- Loop body of `AT24Cxx_Erase` in hardware-I2C mode (AT24Cxx.c lines
406-423): identical in shape to the write loop, except that the chunking
modulus is the precomputed `erase_size` (`es`), the data written is always a
prefix of the constant fill buffer `fbuf`, and again `rsp = wmem(...)`
overwrites the status each chunk. -/
def eLoop (bus : HwBus) (es : Nat) (fbuf : List Nat) (fuel : Nat) (dev : at24cxx_t)
    (i endAddr remain rsp : Nat) : at24cxx_t × Nat × List (Nat × Nat) :=
  match fuel with
  | 0 => (dev, rsp, [])
  | fuel + 1 =>
    if i < endAddr then
      let sz := min remain (es - i % es)
      let dm := AT24Cxx_SetWordAddress dev i
      let r := bus.wmem dm.1.i2caddr i dm.2 (fbuf.take sz)
      let rest := eLoop bus es fbuf fuel dm.1 ((i + sz) % U32) endAddr (remain - sz) r
      (rest.1, rest.2.1, (i, sz) :: rest.2.2)
    else (dev, rsp, [])

/-- `AT24Cxx_Erase` in hardware-I2C mode (AT24Cxx.c lines 339-428):
`erase_size = min(max(8, AT24Cxx_MAX_ERASE_SIZE), pagesize)`, the fill buffer
is `erase_size` copies of `fdata` (`memset`), and the chunk loop runs with
modulus `erase_size`. -/
def AT24Cxx_Erase (bus : HwBus) (dev : at24cxx_t) (saddr fdata size : Nat) :
    at24cxx_t × Nat × List (Nat × Nat) :=
  eLoop bus (min (max 8 AT24Cxx_MAX_ERASE_SIZE) dev.pagesize)
    (List.replicate (min (max 8 AT24Cxx_MAX_ERASE_SIZE) dev.pagesize) fdata)
    (size + 1) dev saddr ((saddr + size) % U32) size 0

/-- `AT24Cxx_Read` in hardware-I2C mode (AT24Cxx.c lines 177-236): set the
word address, then one single `rmem` block transfer of the whole range.
Returns the updated device, the bytes read, the status, and the trace of
`(address, length)` transfer requests issued to `rmem` (there is exactly
one). -/
def AT24Cxx_Read (bus : HwBus) (dev : at24cxx_t) (saddr size : Nat) :
    at24cxx_t × List Nat × Nat × List (Nat × Nat) :=
  let dm := AT24Cxx_SetWordAddress dev saddr
  let dr := bus.rmem dm.1.i2caddr saddr dm.2 size
  (dm.1, dr.1, dr.2, [(saddr, size)])

/-- Acknowledge sequence of the software-I2C branch of `AT24Cxx_Read`
(AT24Cxx.c lines 215-219): `for (i = 0; i < size - 1; i++)` reads a byte with
`ACK` (`true`), then one final byte is read with `NACK` (`false`).  The loop
bound `size - 1` is computed in `uint32_t`, hence the `% U32` wraparound of
the count. -/
def AT24Cxx_Read_sw_acks (size : Nat) : List Bool :=
  List.replicate ((size + U32 - 1) % U32) true ++ [false]

/-- Inner comparison loop of `AT24Cxx_Readback_Write` (AT24Cxx.c lines
462-465 and 474-477): `true` iff some `j < n` has
`data[point + j] != compare_data[j]`. -/
def cmpMismatch (data : List Nat) (point : Nat) (cmp : List Nat) (n : Nat) : Bool :=
  (List.range n).any fun j => data.getD (point + j) 0 != cmp.getD j 0

/-- Quotient loop of `AT24Cxx_Readback_Write` (AT24Cxx.c lines 458-466):
`for (i = 0; i < quotient; i++)` with `uint8_t i` (hence the `% 256` on the
increment), reading back `AT24Cxx_MAX_COMPARE_SIZE` bytes per pass and
returning `1` on the first mismatching byte.  Returns the device state, the
final counter value `i`, and `some 1` if the function returned early.  `fuel`
bounds the unfoldings; the caller passes `quotient + 1`. -/
def rbwLoop (bus : HwBus) (addr : Nat) (data : List Nat) (quotient : Nat) (fuel : Nat)
    (dev : at24cxx_t) (i : Nat) : at24cxx_t × Nat × Option Nat :=
  match fuel with
  | 0 => (dev, i, none)
  | fuel + 1 =>
    if i < quotient then
      let point := i * AT24Cxx_MAX_COMPARE_SIZE
      let rd := AT24Cxx_Read bus dev (addr + point) AT24Cxx_MAX_COMPARE_SIZE
      if cmpMismatch data point rd.2.1 AT24Cxx_MAX_COMPARE_SIZE then (rd.1, i, some 1)
      else rbwLoop bus addr data quotient fuel rd.1 ((i + 1) % 256)
    else (dev, i, none)

/-- `AT24Cxx_Readback_Write` (AT24Cxx.c lines 442-480): write the data (the
status of `AT24Cxx_Write` is discarded), then compare `quotient` full
`AT24Cxx_MAX_COMPARE_SIZE`-byte read-backs and one final `remainder`-byte
read-back against `data` (each `AT24Cxx_Read` status is also discarded);
return `1` on the first mismatching byte, else `0`. -/
def AT24Cxx_Readback_Write (bus : HwBus) (dev : at24cxx_t) (addr : Nat)
    (data : List Nat) (size : Nat) : at24cxx_t × Nat :=
  let w := AT24Cxx_Write bus dev addr data size
  let quotient := size / AT24Cxx_MAX_COMPARE_SIZE
  let remainder := size % AT24Cxx_MAX_COMPARE_SIZE
  let l := rbwLoop bus addr data quotient (quotient + 1) w.1 0
  match l.2.2 with
  | some r => (l.1, r)
  | none =>
    let point := if 0 < quotient then l.2.1 * AT24Cxx_MAX_COMPARE_SIZE else 0
    let rd := AT24Cxx_Read bus l.1 (addr + point) remainder
    if cmpMismatch data point rd.2.1 remainder then (rd.1, 1) else (rd.1, 0)

/-- Exit condition of the readback quotient loop, abstracted: the successive
values of the `uint8_t` counter `i` are `0, 1, 2, ...` reduced `% 256`, and
the loop is exited as soon as `i < quotient` fails. -/
def rbwCounterExits (quotient : Nat) : Prop := ∃ n : Nat, ¬ n % 256 < quotient

/-- Byte capacity of each chip model (the "Byte" column of the table at the
top of AT24Cxx.c). -/
def chipCapacity : AT24Cxx_CHIP → Nat
  | AT24C01 => 128
  | AT24C02 => 256
  | AT24C04 => 512
  | AT24C08 => 1024
  | AT24C16 => 2048
  | AT24C32 => 4096
  | AT24C64 => 8192
  | AT24C128 => 16384
  | AT24C256 => 32768
  | AT24C512 => 65536
  | AT24CM01 => 131072
  | AT24CM02 => 262144

/-- Modelled from the spec: the word-address byte(s) emitted on the bus for a
transaction.  The macros `MSB_16` / `LSB_16` and the block-transport framing
live in the missing `bus_i2c.h`; spec section 4.2 says a 2-byte word address
emits the low 16 bits of the linear address high byte first, and a 1-byte
word address emits the low 8 bits. -/
def wordAddrBytes (msize addr : Nat) : List Nat :=
  if msize = 1 then [addr % 256] else [addr / 256 % 256, addr % 256]

/-- Inverse bit extraction for the encoder round-trip: rebuild a linear
address from the device-address byte (whose bits 1-3 may hold spillover
address bits) and the emitted word-address byte(s), per chip model. -/
def decodeAddress (type : AT24Cxx_CHIP) (byte : Nat) (wb : List Nat) : Nat :=
  match type with
  | AT24C01 => wb.getD 0 0
  | AT24C02 => wb.getD 0 0
  | AT24C04 => wb.getD 0 0 + 256 * rbit byte 1
  | AT24C08 => wb.getD 0 0 + 256 * rbit byte 1 + 512 * rbit byte 2
  | AT24C16 => wb.getD 0 0 + 256 * rbit byte 1 + 512 * rbit byte 2 + 1024 * rbit byte 3
  | AT24C32 => wb.getD 0 0 * 256 + wb.getD 1 0
  | AT24C64 => wb.getD 0 0 * 256 + wb.getD 1 0
  | AT24C128 => wb.getD 0 0 * 256 + wb.getD 1 0
  | AT24C256 => wb.getD 0 0 * 256 + wb.getD 1 0
  | AT24C512 => wb.getD 0 0 * 256 + wb.getD 1 0
  | AT24CM01 => wb.getD 0 0 * 256 + wb.getD 1 0 + 65536 * rbit byte 1
  | AT24CM02 => wb.getD 0 0 * 256 + wb.getD 1 0 + 65536 * rbit byte 1 + 131072 * rbit byte 2

/-- Sum of the chunk lengths of a transaction trace. -/
def chunkSum (cs : List (Nat × Nat)) : Nat := (cs.map Prod.snd).sum

/-- The chunks start at `s` and are contiguous: each chunk begins exactly
where the previous one ended.  Together with all lengths being positive this
makes the chunks non-overlapping. -/
def contiguousFrom : Nat → List (Nat × Nat) → Prop
  | _, [] => True
  | s, c :: cs => c.1 = s ∧ contiguousFrom (s + c.2) cs

/-- Bits 0 and 4-7 of the device-address byte of `d₂` agree with those of
`d₁`: only bits 1-3 (the spillover / hardware-address positions) may have
been rewritten. -/
def preservesHiBits (d₁ d₂ : at24cxx_t) : Prop :=
  d₂.i2caddr % 2 = d₁.i2caddr % 2 ∧ d₂.i2caddr / 16 = d₁.i2caddr / 16

/-- A bus that answers every transaction with status 0 and all-zero data. -/
def busZ : HwBus :=
  { wmem := fun _ _ _ _ => 0, rmem := fun _ _ _ n => (List.replicate n 0, 0) }

/-- A bus that answers every transaction with status 1 (failure) and all-zero
data. -/
def busFail : HwBus :=
  { wmem := fun _ _ _ _ => 1, rmem := fun _ _ _ n => (List.replicate n 0, 1) }

/-- A bus on which exactly the block write addressed at 0 fails. -/
def busFirstFail : HwBus :=
  { wmem := fun _ a _ _ => if a = 0 then 1 else 0,
    rmem := fun _ _ _ n => (List.replicate n 0, 0) }

/-- A configured AT24C01 handle: page size 8, device-address byte 0xA0. -/
def devA : at24cxx_t := { type := AT24C01, i2caddr := 160, pagesize := 8 }

/-- A configured AT24C04 handle: page size 16, device-address byte 0xA0. -/
def dev16 : at24cxx_t := { type := AT24C04, i2caddr := 160, pagesize := 16 }

/-- A configured AT24C08 handle used as a concrete witness input. -/
def dev8 : at24cxx_t := { type := AT24C08, i2caddr := 171, pagesize := 16 }

/-- A configured AT24C16 handle used as a concrete witness input. -/
def devC16 : at24cxx_t := { type := AT24C16, i2caddr := 160, pagesize := 16 }

/-! Helper lemmas. -/

theorem rbit_le_one (v x : Nat) : rbit v x ≤ 1 := by
  have : v / 2 ^ x % 2 < 2 := Nat.mod_lt _ (by omega)
  unfold rbit
  omega

/-- A chunk of length `sz ≥ 1` that fits in the space left in the current
`p`-aligned block lies entirely inside that block. -/
theorem chunk_in_block {p i sz : Nat} (hp : 0 < p) (h1 : 1 ≤ sz) (h : sz ≤ p - i % p) :
    i / p = (i + sz - 1) / p := by
  have hm := Nat.div_add_mod i p
  have hlt : i % p < p := Nat.mod_lt _ hp
  have he : i + sz - 1 = p * (i / p) + (i % p + sz - 1) := by omega
  rw [he, Nat.mul_add_div hp, Nat.div_eq_of_lt (show i % p + sz - 1 < p by omega)]
  omega

theorem setWordAddress_type (dev : at24cxx_t) (a : Nat) :
    (AT24Cxx_SetWordAddress dev a).1.type = dev.type := by
  rcases dev with ⟨t, b, p⟩
  cases t <;> rfl

theorem setWordAddress_pagesize (dev : at24cxx_t) (a : Nat) :
    (AT24Cxx_SetWordAddress dev a).1.pagesize = dev.pagesize := by
  rcases dev with ⟨t, b, p⟩
  cases t <;> rfl

theorem setWordAddress_hi (dev : at24cxx_t) (a : Nat) :
    preservesHiBits dev (AT24Cxx_SetWordAddress dev a).1 := by
  rcases dev with ⟨t, b, p⟩
  have h8 := rbit_le_one a 8
  have h9 := rbit_le_one a 9
  have h10 := rbit_le_one a 10
  have h16 := rbit_le_one a 16
  have h17 := rbit_le_one a 17
  cases t <;>
    simp only [AT24Cxx_SetWordAddress, chipCode, preservesHiBits, setBits] <;>
    norm_num <;> omega

theorem preservesHiBits_trans {d₁ d₂ d₃ : at24cxx_t} (h₁ : preservesHiBits d₁ d₂)
    (h₂ : preservesHiBits d₂ d₃) : preservesHiBits d₁ d₃ :=
  ⟨h₂.1.trans h₁.1, h₂.2.trans h₁.2⟩

theorem wLoop_hi (bus : HwBus) :
    ∀ (fuel : Nat) (dev : at24cxx_t) (i e r : Nat) (data : List Nat) (rsp : Nat),
      preservesHiBits dev (wLoop bus fuel dev i e r data rsp).1 := by
  intro fuel
  induction fuel with
  | zero => exact fun dev i e r data rsp => ⟨rfl, rfl⟩
  | succ f ih =>
    intro dev i e r data rsp
    rw [wLoop]
    by_cases h : i < e
    · simp only [if_pos h]
      exact preservesHiBits_trans (setWordAddress_hi dev i)
        (ih (AT24Cxx_SetWordAddress dev i).1 _ e _ _ _)
    · simp only [if_neg h]
      exact ⟨rfl, rfl⟩

theorem eLoop_hi (bus : HwBus) (es : Nat) (fbuf : List Nat) :
    ∀ (fuel : Nat) (dev : at24cxx_t) (i e r rsp : Nat),
      preservesHiBits dev (eLoop bus es fbuf fuel dev i e r rsp).1 := by
  intro fuel
  induction fuel with
  | zero => exact fun dev i e r rsp => ⟨rfl, rfl⟩
  | succ f ih =>
    intro dev i e r rsp
    rw [eLoop]
    by_cases h : i < e
    · simp only [if_pos h]
      exact preservesHiBits_trans (setWordAddress_hi dev i) (ih (AT24Cxx_SetWordAddress dev i).1 _ e _ _)
    · simp only [if_neg h]
      exact ⟨rfl, rfl⟩

theorem rbwLoop_hi (bus : HwBus) (addr : Nat) (data : List Nat) (quotient : Nat) :
    ∀ (fuel : Nat) (dev : at24cxx_t) (i : Nat),
      preservesHiBits dev (rbwLoop bus addr data quotient fuel dev i).1 := by
  intro fuel
  induction fuel with
  | zero => exact fun dev i => ⟨rfl, rfl⟩
  | succ f ih =>
    intro dev i
    rw [rbwLoop]
    simp only [AT24Cxx_Read]
    split
    · split
      · exact setWordAddress_hi dev _
      · exact preservesHiBits_trans (setWordAddress_hi dev _) (ih _ _)
    · exact ⟨rfl, rfl⟩

theorem chunkSum_cons (c : Nat × Nat) (cs : List (Nat × Nat)) :
    chunkSum (c :: cs) = c.2 + chunkSum cs := by
  simp [chunkSum]

/-- Invariant of the hardware-mode write loop: with a positive page size, no
wraparound of the end address, and enough fuel, the emitted chunk lengths sum
to `remain`, the chunks are contiguous from `i`, and each chunk is nonempty
and confined to one `p`-aligned page. -/
theorem wLoop_trace (bus : HwBus) (p : Nat) (hp : 0 < p) :
    ∀ (fuel : Nat) (dev : at24cxx_t) (i endAddr remain : Nat) (data : List Nat) (rsp : Nat),
      dev.pagesize = p → i + remain = endAddr → endAddr < U32 → remain < fuel →
      chunkSum (wLoop bus fuel dev i endAddr remain data rsp).2.2 = remain ∧
      contiguousFrom i (wLoop bus fuel dev i endAddr remain data rsp).2.2 ∧
      ∀ c ∈ (wLoop bus fuel dev i endAddr remain data rsp).2.2,
        1 ≤ c.2 ∧ c.1 / p = (c.1 + c.2 - 1) / p := by
  intro fuel
  induction fuel with
  | zero => exact fun dev i e r data rsp _ _ _ hf => absurd hf (by omega)
  | succ f ih =>
    intro dev i e r data rsp hps hsum hend hf
    by_cases h : i < e
    · have hrem : 1 ≤ r := by omega
      have hmod : i % dev.pagesize < dev.pagesize := Nat.mod_lt _ (by omega)
      have hszle : min r (dev.pagesize - i % dev.pagesize) ≤ r := Nat.min_le_left _ _
      have hsz1 : 1 ≤ min r (dev.pagesize - i % dev.pagesize) := by omega
      have hszcur : min r (dev.pagesize - i % dev.pagesize) ≤ dev.pagesize - i % dev.pagesize :=
        Nat.min_le_right _ _
      have hi32 : (i + min r (dev.pagesize - i % dev.pagesize)) % U32 =
          i + min r (dev.pagesize - i % dev.pagesize) := Nat.mod_eq_of_lt (by omega)
      simp only [wLoop, if_pos h, hi32]
      obtain ⟨ihs, ihc, ihm⟩ :=
        ih (AT24Cxx_SetWordAddress dev i).1 (i + min r (dev.pagesize - i % dev.pagesize)) e
          (r - min r (dev.pagesize - i % dev.pagesize))
          (data.drop (min r (dev.pagesize - i % dev.pagesize)))
          (bus.wmem (AT24Cxx_SetWordAddress dev i).1.i2caddr i (AT24Cxx_SetWordAddress dev i).2
            (data.take (min r (dev.pagesize - i % dev.pagesize))))
          (by rw [setWordAddress_pagesize]; exact hps) (by omega) hend (by omega)
      refine ⟨?_, ⟨rfl, ihc⟩, ?_⟩
      · rw [chunkSum_cons, ihs]; omega
      · intro c hc
        rcases List.mem_cons.mp hc with hc | hc
        · subst hc
          refine ⟨hsz1, chunk_in_block hp hsz1 ?_⟩
          rw [← hps]; exact hszcur
        · exact ihm c hc
    · simp only [wLoop, if_neg h]
      refine ⟨?_, trivial, fun c hc => absurd hc (List.not_mem_nil c)⟩
      have hr0 : r = 0 := by omega
      simp [chunkSum, hr0]

/-- Invariant of the hardware-mode erase loop: same shape as `wLoop_trace`,
with the chunking modulus `es` in place of the page size. -/
theorem eLoop_trace (bus : HwBus) (es : Nat) (fbuf : List Nat) (hes : 0 < es) :
    ∀ (fuel : Nat) (dev : at24cxx_t) (i endAddr remain rsp : Nat),
      i + remain = endAddr → endAddr < U32 → remain < fuel →
      chunkSum (eLoop bus es fbuf fuel dev i endAddr remain rsp).2.2 = remain ∧
      contiguousFrom i (eLoop bus es fbuf fuel dev i endAddr remain rsp).2.2 ∧
      ∀ c ∈ (eLoop bus es fbuf fuel dev i endAddr remain rsp).2.2,
        1 ≤ c.2 ∧ c.1 / es = (c.1 + c.2 - 1) / es := by
  intro fuel
  induction fuel with
  | zero => exact fun dev i e r rsp _ _ hf => absurd hf (by omega)
  | succ f ih =>
    intro dev i e r rsp hsum hend hf
    by_cases h : i < e
    · have hrem : 1 ≤ r := by omega
      have hmod : i % es < es := Nat.mod_lt _ hes
      have hszle : min r (es - i % es) ≤ r := Nat.min_le_left _ _
      have hsz1 : 1 ≤ min r (es - i % es) := by omega
      have hszcur : min r (es - i % es) ≤ es - i % es := Nat.min_le_right _ _
      have hi32 : (i + min r (es - i % es)) % U32 = i + min r (es - i % es) :=
        Nat.mod_eq_of_lt (by omega)
      simp only [eLoop, if_pos h, hi32]
      obtain ⟨ihs, ihc, ihm⟩ :=
        ih (AT24Cxx_SetWordAddress dev i).1 (i + min r (es - i % es)) e (r - min r (es - i % es))
          (bus.wmem (AT24Cxx_SetWordAddress dev i).1.i2caddr i (AT24Cxx_SetWordAddress dev i).2
            (fbuf.take (min r (es - i % es))))
          (by omega) hend (by omega)
      refine ⟨?_, ⟨rfl, ihc⟩, ?_⟩
      · rw [chunkSum_cons, ihs]; omega
      · intro c hc
        rcases List.mem_cons.mp hc with hc | hc
        · subst hc
          exact ⟨hsz1, chunk_in_block hes hsz1 hszcur⟩
        · exact ihm c hc
    · simp only [eLoop, if_neg h]
      refine ⟨?_, trivial, fun c hc => absurd hc (List.not_mem_nil c)⟩
      have hr0 : r = 0 := by omega
      simp [chunkSum, hr0]

/-- The device-state evolution of the write loop is independent of the bus
responses (statuses only flow into `rsp`, which the loop never reads). -/
theorem wLoop_dev (bus₁ bus₂ : HwBus) :
    ∀ (fuel : Nat) (dev : at24cxx_t) (i e r : Nat) (data : List Nat) (rsp₁ rsp₂ : Nat),
      (wLoop bus₁ fuel dev i e r data rsp₁).1 = (wLoop bus₂ fuel dev i e r data rsp₂).1 := by
  intro fuel
  induction fuel with
  | zero => exact fun dev i e r data rsp₁ rsp₂ => rfl
  | succ f ih =>
    intro dev i e r data rsp₁ rsp₂
    by_cases h : i < e
    · simp only [wLoop, if_pos h]
      exact ih _ _ _ _ _ _ _
    · simp only [wLoop, if_neg h]

/-- The readback comparison loop gives identical results on two buses whose
reads return the same data, whatever each transaction's status is. -/
theorem rbwLoop_status_free (bus₁ bus₂ : HwBus)
    (hr : ∀ da ad ms n, (bus₁.rmem da ad ms n).1 = (bus₂.rmem da ad ms n).1)
    (addr : Nat) (data : List Nat) (quotient : Nat) :
    ∀ (fuel : Nat) (dev : at24cxx_t) (i : Nat),
      rbwLoop bus₁ addr data quotient fuel dev i = rbwLoop bus₂ addr data quotient fuel dev i := by
  intro fuel
  induction fuel with
  | zero => exact fun dev i => rfl
  | succ f ih =>
    intro dev i
    by_cases h : i < quotient
    · simp only [rbwLoop, if_pos h, AT24Cxx_Read, hr]
      split
      · rfl
      · exact ih _ _
    · simp only [rbwLoop, if_neg h]

/-- Bit-preservation for `AT24Cxx_Readback_Write`. -/
theorem readback_hi (bus : HwBus) (dev : at24cxx_t) (addr : Nat) (data : List Nat)
    (size : Nat) : preservesHiBits dev (AT24Cxx_Readback_Write bus dev addr data size).1 := by
  have h1 : preservesHiBits dev (AT24Cxx_Write bus dev addr data size).1 :=
    wLoop_hi bus _ dev addr _ size data 0
  have h2 := rbwLoop_hi bus addr data (size / AT24Cxx_MAX_COMPARE_SIZE)
    (size / AT24Cxx_MAX_COMPARE_SIZE + 1) (AT24Cxx_Write bus dev addr data size).1 0
  simp only [AT24Cxx_Readback_Write]
  split
  · exact preservesHiBits_trans h1 h2
  · simp only [AT24Cxx_Read]
    apply preservesHiBits_trans (preservesHiBits_trans h1 h2)
    have hx : ∀ (c : Bool) (x : at24cxx_t) (a b : Nat),
        (if c = true then (x, a) else (x, b)).1 = x := fun c x a b => by cases c <;> rfl
    rw [hx]
    exact setWordAddress_hi _ _

/-! Claim theorems. -/

/-- C10: for every device handle and start address, `AT24Cxx_Write` and
`AT24Cxx_Erase` called with `size = 0` issue no bus transaction (empty
transaction trace), leave the device handle unchanged, and return status 0. -/
theorem write_erase_size_zero (bus : HwBus) (dev : at24cxx_t) (saddr fdata : Nat)
    (data : List Nat) :
    AT24Cxx_Write bus dev saddr data 0 = (dev, 0, []) ∧
    AT24Cxx_Erase bus dev saddr fdata 0 = (dev, 0, []) := by
  have h : ¬ saddr < (saddr + 0) % U32 := by
    have := Nat.mod_le (saddr + 0) U32
    omega
  constructor
  · simp only [AT24Cxx_Write, wLoop, if_neg h]
  · simp only [AT24Cxx_Erase, eLoop, if_neg h]

/-- C4 (amended with the no-overflow hypothesis `saddr + size < 2^32`): for
every start address and size whose end address does not wrap around
`uint32_t`, and every `page_size ≥ 1`, the chunk sequence issued by
`AT24Cxx_Write` has lengths summing exactly to `size`, is contiguous and
non-overlapping (positive lengths) starting at the start address, and every
chunk's `[address, address+length)` lies within a single page
(`address / page_size = (address+length-1) / page_size`). -/
theorem write_chunk_coverage (bus : HwBus) (dev : at24cxx_t) (saddr size : Nat)
    (data : List Nat) (hp : 1 ≤ dev.pagesize) (hov : saddr + size < U32) :
    chunkSum (AT24Cxx_Write bus dev saddr data size).2.2 = size ∧
    contiguousFrom saddr (AT24Cxx_Write bus dev saddr data size).2.2 ∧
    ∀ c ∈ (AT24Cxx_Write bus dev saddr data size).2.2,
      1 ≤ c.2 ∧ c.1 / dev.pagesize = (c.1 + c.2 - 1) / dev.pagesize := by
  have hmod : (saddr + size) % U32 = saddr + size := Nat.mod_eq_of_lt hov
  simp only [AT24Cxx_Write]
  exact wLoop_trace bus dev.pagesize (by omega) (size + 1) dev saddr ((saddr + size) % U32)
    size data 0 rfl (by omega) (by omega) (by omega)

/-- C4 counterexample: with the claim's unrestricted quantification over start
addresses and sizes, `uint32_t` overflow of `EndAddr = saddr + size` makes the
loop exit immediately, so the chunk lengths do not sum to `size`. -/
theorem write_chunk_coverage_counterexample :
    ¬ chunkSum (AT24Cxx_Write busZ devA 4294967295 [7, 7] 2).2.2 = 2 := by decide

/-- Witness for `write_chunk_coverage` at a concrete input. -/
theorem write_chunk_coverage_witness :
    1 ≤ devA.pagesize ∧ 5 + 20 < U32 ∧
    chunkSum (AT24Cxx_Write busZ devA 5 (List.replicate 20 3) 20).2.2 = 20 :=
  ⟨by decide, by decide,
    (write_chunk_coverage busZ devA 5 20 (List.replicate 20 3) (by decide) (by decide)).1⟩

/-- C1 counterexample: `AT24Cxx_Erase` does not split like `AT24Cxx_Write`.
On a 16-byte-page device, erasing 10 bytes from address 10 issues the single
chunk `(10, 10)`, which crosses the page boundary at 16, while the same write
request splits into `(10, 6), (16, 4)`. -/
theorem erase_split_not_like_write :
    (AT24Cxx_Erase busZ dev16 10 255 10).2.2 = [(10, 10)] ∧
    (AT24Cxx_Write busZ dev16 10 (List.replicate 10 0) 10).2.2 = [(10, 6), (16, 4)] ∧
    ¬ (10 : Nat) / dev16.pagesize = (10 + 10 - 1) / dev16.pagesize := by decide

/-- C1 (amended): `AT24Cxx_Erase` splits with the modulus
`erase_size = min (max 8 AT24Cxx_MAX_ERASE_SIZE) page_size` (that is,
`min 10 page_size`), not with `page_size` as `AT24Cxx_Write` does: for
`page_size ≥ 1` and no `uint32_t` overflow of the end address, the erase
chunks' lengths sum exactly to `total_size`, the chunks are contiguous and
non-overlapping, and no chunk crosses an `erase_size`-aligned boundary (it
may cross a `page_size`-aligned page boundary when `page_size > 10`). -/
theorem erase_chunk_coverage (bus : HwBus) (dev : at24cxx_t) (saddr fdata size : Nat)
    (hp : 1 ≤ dev.pagesize) (hov : saddr + size < U32) :
    chunkSum (AT24Cxx_Erase bus dev saddr fdata size).2.2 = size ∧
    contiguousFrom saddr (AT24Cxx_Erase bus dev saddr fdata size).2.2 ∧
    ∀ c ∈ (AT24Cxx_Erase bus dev saddr fdata size).2.2,
      1 ≤ c.2 ∧
      c.1 / min (max 8 AT24Cxx_MAX_ERASE_SIZE) dev.pagesize =
        (c.1 + c.2 - 1) / min (max 8 AT24Cxx_MAX_ERASE_SIZE) dev.pagesize := by
  have hmod : (saddr + size) % U32 = saddr + size := Nat.mod_eq_of_lt hov
  have h8 : (8 : Nat) ≤ max 8 AT24Cxx_MAX_ERASE_SIZE := le_max_left _ _
  have hes : 0 < min (max 8 AT24Cxx_MAX_ERASE_SIZE) dev.pagesize := by omega
  simp only [AT24Cxx_Erase]
  exact eLoop_trace bus _ _ hes (size + 1) dev saddr ((saddr + size) % U32) size 0
    (by omega) (by omega) (by omega)

/-- Witness for `erase_chunk_coverage` at a concrete input. -/
theorem erase_chunk_coverage_witness :
    1 ≤ dev16.pagesize ∧ 10 + 10 < U32 ∧
    chunkSum (AT24Cxx_Erase busZ dev16 10 255 10).2.2 = 10 :=
  ⟨by decide, by decide, (erase_chunk_coverage busZ dev16 10 255 10 (by decide) (by decide)).1⟩

/-- C2: in the compiled hardware-I2C mode, the loop body executes
`rsp = wmem(...)`, not `rsp |= wmem(...)`: each chunk's status overwrites the
previous one, so a failure in the first chunk followed by a successful second
chunk makes the call return 0, contradicting the claimed bitwise-OR
accumulation (which the software-I2C branch of the same function does
implement).  Evaluated here at a two-chunk write whose first chunk fails. -/
theorem write_status_last_chunk_only :
    (AT24Cxx_Write busFirstFail devA 0 (List.replicate 16 0) 16).2.2 = [(0, 8), (8, 8)] ∧
    busFirstFail.wmem devA.i2caddr 0 1 (List.replicate 8 0) = 1 ∧
    (AT24Cxx_Write busFirstFail devA 0 (List.replicate 16 0) 16).2.1 = 0 := by decide

/-- C3 counterexample: `AT24Cxx_Readback_Write` discards the status of the
`AT24Cxx_Write` it performs and of every `AT24Cxx_Read` it issues.  On a bus
whose every transaction reports failure (status 1) but whose read data happens
to match the written data, the write it performs reports failure, the reads
report failure, yet the call returns 0 (success). -/
theorem readback_ignores_failure_status :
    (AT24Cxx_Write busFail devA 0 (List.replicate 5 0) 5).2.1 = 1 ∧
    (busFail.rmem devA.i2caddr 0 1 5).2 = 1 ∧
    (AT24Cxx_Readback_Write busFail devA 0 (List.replicate 5 0) 5).2 = 0 := by decide

/-- C3 (amended): `AT24Cxx_Readback_Write` ignores every transport status:
its result depends only on the data bytes the reads return, so two buses
whose reads return the same data — whatever statuses their transactions
report — give the same verdict.  Transport failures are surfaced only
indirectly, when they make a compared byte differ.  The hypothesis
`size ≤ 2559` restricts the statement to the inputs on which the C function's
`uint8_t`-counter loop terminates at all (see C9). -/
theorem readback_result_status_free (bus₁ bus₂ : HwBus) (dev : at24cxx_t) (addr size : Nat)
    (data : List Nat) (hsz : size ≤ 2559)
    (hr : ∀ da ad ms n, (bus₁.rmem da ad ms n).1 = (bus₂.rmem da ad ms n).1) :
    (AT24Cxx_Readback_Write bus₁ dev addr data size).2 =
      (AT24Cxx_Readback_Write bus₂ dev addr data size).2 := by
  have hw : (AT24Cxx_Write bus₁ dev addr data size).1 =
      (AT24Cxx_Write bus₂ dev addr data size).1 :=
    wLoop_dev bus₁ bus₂ (size + 1) dev addr ((addr + size) % U32) size data 0 0
  simp only [AT24Cxx_Readback_Write, AT24Cxx_Read]
  rw [hw, rbwLoop_status_free bus₁ bus₂ hr addr data, hr]

/-- Witness for `readback_result_status_free` at a concrete input: an
all-success bus and an all-failure bus returning the same read data. -/
theorem readback_result_status_free_witness :
    5 ≤ 2559 ∧
    (AT24Cxx_Readback_Write busZ devA 0 (List.replicate 5 0) 5).2 =
      (AT24Cxx_Readback_Write busFail devA 0 (List.replicate 5 0) 5).2 :=
  ⟨by decide, readback_result_status_free busZ busFail devA 0 5 (List.replicate 5 0)
    (by decide) (fun da ad ms n => rfl)⟩

/-- C9: the readback comparison loop counter `i` is a `uint8_t`, so its
successive values are `n % 256`; whenever `size / AT24Cxx_MAX_COMPARE_SIZE ≤
255`, i.e. `size ≤ 2559`, the counter reaches the quotient and the loop is
exited. -/
theorem readback_quotient_loop_exits (size : Nat) (h : size ≤ 2559) :
    rbwCounterExits (size / AT24Cxx_MAX_COMPARE_SIZE) := by
  refine ⟨size / AT24Cxx_MAX_COMPARE_SIZE, ?_⟩
  simp only [AT24Cxx_MAX_COMPARE_SIZE]
  omega

/-- Witness for `readback_quotient_loop_exits` at the boundary input. -/
theorem readback_quotient_loop_exits_witness :
    2559 ≤ 2559 ∧ rbwCounterExits (2559 / AT24Cxx_MAX_COMPARE_SIZE) :=
  ⟨by decide, readback_quotient_loop_exits 2559 (by decide)⟩

/-- C7: for every length ≥ 1 (and < 2^32, the parameter's type), the
hardware-mode `AT24Cxx_Read` issues a single transfer request covering the
whole requested range, and the software-I2C branch reads every byte except
the last with an acknowledge (`true`) and the final byte with a
no-acknowledge (`false`). -/
theorem read_single_request_acks (bus : HwBus) (dev : at24cxx_t) (saddr size : Nat)
    (h1 : 1 ≤ size) (h2 : size < U32) :
    (AT24Cxx_Read bus dev saddr size).2.2.2 = [(saddr, size)] ∧
    AT24Cxx_Read_sw_acks size = List.replicate (size - 1) true ++ [false] ∧
    (AT24Cxx_Read_sw_acks size).length = size := by
  have hc : (size + U32 - 1) % U32 = size - 1 := by
    have he : size + U32 - 1 = (size - 1) + U32 := by omega
    rw [he, Nat.add_mod_right]
    exact Nat.mod_eq_of_lt (by omega)
  refine ⟨rfl, ?_, ?_⟩
  · simp only [AT24Cxx_Read_sw_acks, hc]
  · simp only [AT24Cxx_Read_sw_acks, hc, List.length_append, List.length_replicate,
      List.length_cons, List.length_nil]
    omega

/-- Witness for `read_single_request_acks` at a concrete input. -/
theorem read_single_request_acks_witness :
    1 ≤ 3 ∧ 3 < U32 ∧ (AT24Cxx_Read busZ devA 5 3).2.2.2 = [(5, 3)] ∧
    AT24Cxx_Read_sw_acks 3 = List.replicate (3 - 1) true ++ [false] :=
  ⟨by decide, by decide, (read_single_request_acks busZ devA 5 3 (by decide) (by decide)).1,
    (read_single_request_acks busZ devA 5 3 (by decide) (by decide)).2.1⟩

/-- C5: for every supported chip model and every linear address below the
model's capacity, the spillover bits placed in the device-address byte by
`AT24Cxx_SetWordAddress`, together with the emitted word-address byte(s),
determine the original linear address exactly: inverse bit extraction
(`decodeAddress`) reconstructs it. -/
theorem encoder_roundtrip (dev : at24cxx_t) (addr : Nat) (h : addr < chipCapacity dev.type) :
    decodeAddress dev.type (AT24Cxx_SetWordAddress dev addr).1.i2caddr
      (wordAddrBytes (AT24Cxx_SetWordAddress dev addr).2 addr) = addr := by
  rcases dev with ⟨t, b, p⟩
  cases t <;>
    simp [AT24Cxx_SetWordAddress, chipCode, chipCapacity, decodeAddress, wordAddrBytes,
      setBits, rbit] at h ⊢ <;>
    omega

/-- Witness for `encoder_roundtrip` at a concrete input (AT24C16, address
1234). -/
theorem encoder_roundtrip_witness :
    1234 < chipCapacity devC16.type ∧
    decodeAddress devC16.type (AT24Cxx_SetWordAddress devC16 1234).1.i2caddr
      (wordAddrBytes (AT24Cxx_SetWordAddress devC16 1234).2 1234) = 1234 :=
  ⟨by decide, encoder_roundtrip devC16 1234 (by decide)⟩

/-- C6: `AT24Cxx_SetWordAddress` reports a 2-byte word address exactly for
AT24C32 and denser models and a 1-byte one otherwise, and folds the spillover
address bits into the device-address byte per model: bit 8 of the address
into bit 1 of the byte for AT24C04; bits 8 and 9 for AT24C08; bits 8, 9 and
10 for AT24C16; bit 16 for AT24CM01; bits 16 and 17 for AT24CM02; and no bit
of the byte changes for any other model.  The untouched positions are stated
as the preserved `% 2` (bit 0) and `/ 4`, `/ 8` or `/ 16` (all bits above the
rewritten ones). -/
theorem setWordAddress_width_and_spillover (dev : at24cxx_t) (addr : Nat) :
    ((AT24Cxx_SetWordAddress dev addr).2 = 2 ↔
      (dev.type = AT24C32 ∨ dev.type = AT24C64 ∨ dev.type = AT24C128 ∨
       dev.type = AT24C256 ∨ dev.type = AT24C512 ∨ dev.type = AT24CM01 ∨
       dev.type = AT24CM02)) ∧
    ((AT24Cxx_SetWordAddress dev addr).2 = 1 ∨ (AT24Cxx_SetWordAddress dev addr).2 = 2) ∧
    (dev.type = AT24C04 →
      rbit (AT24Cxx_SetWordAddress dev addr).1.i2caddr 1 = rbit addr 8 ∧
      (AT24Cxx_SetWordAddress dev addr).1.i2caddr % 2 = dev.i2caddr % 2 ∧
      (AT24Cxx_SetWordAddress dev addr).1.i2caddr / 4 = dev.i2caddr / 4) ∧
    (dev.type = AT24C08 →
      rbit (AT24Cxx_SetWordAddress dev addr).1.i2caddr 1 = rbit addr 8 ∧
      rbit (AT24Cxx_SetWordAddress dev addr).1.i2caddr 2 = rbit addr 9 ∧
      (AT24Cxx_SetWordAddress dev addr).1.i2caddr % 2 = dev.i2caddr % 2 ∧
      (AT24Cxx_SetWordAddress dev addr).1.i2caddr / 8 = dev.i2caddr / 8) ∧
    (dev.type = AT24C16 →
      rbit (AT24Cxx_SetWordAddress dev addr).1.i2caddr 1 = rbit addr 8 ∧
      rbit (AT24Cxx_SetWordAddress dev addr).1.i2caddr 2 = rbit addr 9 ∧
      rbit (AT24Cxx_SetWordAddress dev addr).1.i2caddr 3 = rbit addr 10 ∧
      (AT24Cxx_SetWordAddress dev addr).1.i2caddr % 2 = dev.i2caddr % 2 ∧
      (AT24Cxx_SetWordAddress dev addr).1.i2caddr / 16 = dev.i2caddr / 16) ∧
    (dev.type = AT24CM01 →
      rbit (AT24Cxx_SetWordAddress dev addr).1.i2caddr 1 = rbit addr 16 ∧
      (AT24Cxx_SetWordAddress dev addr).1.i2caddr % 2 = dev.i2caddr % 2 ∧
      (AT24Cxx_SetWordAddress dev addr).1.i2caddr / 4 = dev.i2caddr / 4) ∧
    (dev.type = AT24CM02 →
      rbit (AT24Cxx_SetWordAddress dev addr).1.i2caddr 1 = rbit addr 16 ∧
      rbit (AT24Cxx_SetWordAddress dev addr).1.i2caddr 2 = rbit addr 17 ∧
      (AT24Cxx_SetWordAddress dev addr).1.i2caddr % 2 = dev.i2caddr % 2 ∧
      (AT24Cxx_SetWordAddress dev addr).1.i2caddr / 8 = dev.i2caddr / 8) ∧
    ((dev.type = AT24C01 ∨ dev.type = AT24C02 ∨ dev.type = AT24C32 ∨ dev.type = AT24C64 ∨
      dev.type = AT24C128 ∨ dev.type = AT24C256 ∨ dev.type = AT24C512) →
      (AT24Cxx_SetWordAddress dev addr).1.i2caddr = dev.i2caddr) := by
  rcases dev with ⟨t, b, p⟩
  cases t <;>
    simp [AT24Cxx_SetWordAddress, chipCode, setBits, rbit] <;>
    omega

/-- Witness for `setWordAddress_width_and_spillover` at a concrete input
(AT24C08, an address with bits 8 and 9 set). -/
theorem setWordAddress_width_and_spillover_witness :
    rbit (AT24Cxx_SetWordAddress dev8 939).1.i2caddr 1 = rbit 939 8 ∧
    rbit (AT24Cxx_SetWordAddress dev8 939).1.i2caddr 2 = rbit 939 9 :=
  ⟨((setWordAddress_width_and_spillover dev8 939).2.2.2.1 rfl).1,
    ((setWordAddress_width_and_spillover dev8 939).2.2.2.1 rfl).2.1⟩

/-- C8: after `AT24Cxx_config` stores the device-type bits, the top nibble of
the device-address byte equals those configured bits, and every subsequent
operation — `AT24Cxx_SetWordAddress` and the Read/Write/Erase/Readback_Write
calls — rewrites only bits 1-3 of that byte: bit 0 (`% 2`) and the top nibble
(`/ 16`) are preserved. -/
theorem config_devtype_nibble_preserved (dev : at24cxx_t) (t : AT24Cxx_CHIP)
    (devaddr haraddr : Nat) (bus : HwBus)
    (a saddr wsize esaddr fdata esize rsaddr rsize addr bsize : Nat) (data : List Nat) :
    (AT24Cxx_config dev t devaddr haraddr).i2caddr / 16 % 16 = devaddr % 16 ∧
    preservesHiBits dev (AT24Cxx_SetWordAddress dev a).1 ∧
    preservesHiBits dev (AT24Cxx_Write bus dev saddr data wsize).1 ∧
    preservesHiBits dev (AT24Cxx_Erase bus dev esaddr fdata esize).1 ∧
    preservesHiBits dev (AT24Cxx_Read bus dev rsaddr rsize).1 ∧
    preservesHiBits dev (AT24Cxx_Readback_Write bus dev addr data bsize).1 := by
  refine ⟨?_, setWordAddress_hi dev a,
    wLoop_hi bus (wsize + 1) dev saddr ((saddr + wsize) % U32) wsize data 0,
    eLoop_hi bus (min (max 8 AT24Cxx_MAX_ERASE_SIZE) dev.pagesize)
      (List.replicate (min (max 8 AT24Cxx_MAX_ERASE_SIZE) dev.pagesize) fdata)
      (esize + 1) dev esaddr ((esaddr + esize) % U32) esize 0,
    setWordAddress_hi dev rsaddr, readback_hi bus dev addr data bsize⟩
  simp [AT24Cxx_config, setBits]
  omega

end AT24CxxModel
